import Mathlib

/-!
Verification development for the generic train/validate loop of
trojanzoo (src/trojanzoo/utils/train.py).

The loop is embedded shallowly as an executable state machine over an
abstract environment: every call into an injected hook or into the
external tensor library is recorded as an `Event` in a trace, tagged
with the epoch and batch index at which it happens.  Numeric values
(validation accuracies, batch sizes) are abstract inputs supplied by the
configuration; machine floats are modelled as rationals.

Python semantics that matter and how they are modelled:
- `range(resume, epochs)` over possibly negative ints: `intRange`;
- Python `%` (floor-division remainder): `Int.fmod`;
- truthiness of ints (`if resume`, `if validate_interval != 0`):
  explicit `!= 0` tests;
- the `ZeroDivisionError` that `global_avg` raises after an epoch whose
  batches carry zero total weight propagates and aborts the run: the
  model sets a `crashed` flag and emits nothing further.
-/

/-- Observable actions of the train loop, one constructor per call site in
src/trojanzoo/utils/train.py.  Events carry the epoch number `e`
(the value of the Python local after the increment at line 77) and the
zero-based batch index `i` where relevant. -/
inductive Event where
  | scalerCreate
  | validateInit (epochArg : Int) (writerPassed : Bool)
  | schedStep
  | epochBegin (e : Int)
  | activateNone
  | activateAll
  | epochHook (e : Int)
  | modeTrain
  | modeEval
  | getData (e : Int) (i : Nat)
  | preCondEnable
  | preCondDisable
  | preCondStep
  | forward (e : Int) (i : Nat) (amp : Bool)
  | lossCompute (e : Int) (i : Nat)
  | optZeroGrad
  | backwardAmp
  | backward
  | scalerUnscale
  | afterLoss (e : Int) (i : Nat) (iter : Int) (total : Int)
  | gradClipNorm
  | scalerStepOpt
  | scalerUpdate
  | optStep
  | emaUpdate (e : Int) (i : Nat)
  | emaReset (e : Int) (i : Nat)
  | metricUpdate (e : Int) (i : Nat)
  | emptyCache
  | writerScalars (e : Int)
  | validateEpoch (e : Int) (epochArg : Int) (writerPassed : Bool)
  | bestUpdate (e : Int) (acc : ℚ)
  | saveCall (e : Int)
  | moduleZeroGrad
deriving DecidableEq

/-- Frequency of learning-rate schedule stepping (lr_scheduler_freq). -/
inductive Freq where
  | epochs
  | step
deriving DecidableEq

/-- Abstract configuration of one call of train: every parameter of the
Python function that influences control flow, with injected hooks
abstracted to presence flags and value streams.  valAcc n is the top-1
accuracy returned by the n-th call of validate_fn (0-based, counting the
initial call at line 62); batchSize e i is int(_label.size(0)) for batch
i of epoch e. -/
structure TrainCfg where
  epochs : Int
  resume : Int
  startEpoch : Int
  validateInterval : Int
  save : Bool
  amp : Bool
  numGpus : Nat
  lenLoaderTrain : Nat
  hasEpochFn : Bool
  hasAfterLossFn : Bool
  hasLrScheduler : Bool
  lrSchedulerFreq : Freq
  hasModelEma : Bool
  modelEmaSteps : Int
  lrWarmupEpochs : Int
  hasGradClip : Bool
  hasPreConditioner : Bool
  changeTrainEval : Bool
  hasWriter : Bool
  valAcc : Nat → ℚ
  batchSize : Int → Nat → Nat

/-- Modelled from the spec: SmoothedValue of trojanzoo/utils/logger.py is
not part of the source excerpt.  Per spec sections 3 and 4.1, update
folds an observation into unbounded accumulators (running total weighted
by the observation weight, and count), besides a bounded window that the
lifetime average does not depend on; global_avg = total / count. -/
structure SmoothedValue where
  total : ℚ
  count : Nat
deriving DecidableEq

def SmoothedValue.empty : SmoothedValue := ⟨0, 0⟩

def SmoothedValue.update (sv : SmoothedValue) (value : ℚ) (n : Nat) : SmoothedValue :=
  ⟨sv.total + value * n, sv.count + n⟩

def SmoothedValue.global_avg (sv : SmoothedValue) : ℚ :=
  sv.total / (sv.count : ℚ)

/-- List of integers a, a+1, ..., b-1, as Python range(a, b). -/
def intRange (a b : Int) : List Int :=
  (List.range (b - a).toNat).map (fun (k : Nat) => a + (k : Int))

/-- Epoch numbers the train loop covers: Python range(resume, epochs)
with the increment at line 77, i.e. resume+1, ..., epochs. -/
def epochList (cfg : TrainCfg) : List Int :=
  (intRange cfg.resume cfg.epochs).map (fun e => e + 1)

/-- Trace of one batch iteration (lines 99-156), with amp already
resolved against the accelerator count. -/
def batchTrace (cfg : TrainCfg) (amp : Bool) (totalIter : Int) (e : Int) (i : Nat) : List Event :=
  let iter : Int := e * (cfg.lenLoaderTrain : Int) + i
  [Event.getData e i]
  ++ (if cfg.hasPreConditioner && !amp then [Event.preCondEnable] else [])
  ++ [Event.forward e i amp, Event.lossCompute e i, Event.optZeroGrad]
  ++ (if amp then
        [Event.backwardAmp]
        ++ (if cfg.hasAfterLossFn then
              [Event.scalerUnscale, Event.afterLoss e i iter totalIter] else [])
        ++ (if cfg.hasGradClip then [Event.scalerUnscale, Event.gradClipNorm] else [])
        ++ [Event.scalerStepOpt, Event.scalerUpdate]
      else
        [Event.backward]
        ++ (if cfg.hasAfterLossFn then [Event.afterLoss e i iter totalIter] else [])
        ++ (if cfg.hasPreConditioner then [Event.preCondDisable, Event.preCondStep] else [])
        ++ (if cfg.hasGradClip then [Event.gradClipNorm] else [])
        ++ [Event.optStep])
  ++ (if cfg.hasModelEma && Int.fmod i cfg.modelEmaSteps == 0 then
        [Event.emaUpdate e i]
        ++ (if e ≤ cfg.lrWarmupEpochs then [Event.emaReset e i] else [])
      else [])
  ++ (if cfg.hasLrScheduler && cfg.lrSchedulerFreq == Freq.step then [Event.schedStep] else [])
  ++ [Event.metricUpdate e i, Event.emptyCache]

/-- Trace of the whole batch loop of epoch e. -/
def epochBatches (cfg : TrainCfg) (amp : Bool) (totalIter : Int) (e : Int) : List Event :=
  (List.range cfg.lenLoaderTrain).flatMap (batchTrace cfg amp totalIter e)

/-- Total weight accumulated by the epoch meters: the sum of the batch
sizes of epoch e.  When it is zero, reading global_avg at line 163
raises ZeroDivisionError. -/
def epochSampleCount (cfg : TrainCfg) (e : Int) : Nat :=
  ((List.range cfg.lenLoaderTrain).map (cfg.batchSize e)).sum

/-- Periodic-validation trigger at line 175:
_epoch percent validate_interval == 0 or _epoch == epochs (guarded at
line 174 by validate_interval != 0). -/
def chkCond (cfg : TrainCfg) (e : Int) : Bool :=
  cfg.validateInterval != 0
    && (Int.fmod e cfg.validateInterval == 0 || e == cfg.epochs)

/-- Scalar state threaded through the epoch loop: the best accuracy so
far, the number of validate_fn calls made (the cursor into valAcc), and
whether the run has aborted with an uncaught exception. -/
structure LoopState where
  best : ℚ
  vCalls : Nat
  crashed : Bool
deriving DecidableEq

/-- One iteration of the epoch loop (lines 76-197), emitting its trace
segment and updating the scalar state. -/
def epochStep (cfg : TrainCfg) (amp : Bool) (totalIter : Int) (e : Int)
    (s : LoopState) : List Event × LoopState :=
  let pre :=
    [Event.epochBegin e]
    ++ (if cfg.hasEpochFn then [Event.activateNone, Event.epochHook e] else [])
    ++ (if cfg.changeTrainEval then [Event.modeTrain] else [])
    ++ [Event.activateAll]
  let batches := epochBatches cfg amp totalIter e
  let post :=
    [Event.optZeroGrad]
    ++ (if cfg.hasLrScheduler && cfg.lrSchedulerFreq == Freq.epochs then [Event.schedStep] else [])
    ++ (if cfg.changeTrainEval then [Event.modeEval] else [])
    ++ [Event.activateNone]
  if epochSampleCount cfg e == 0 then
    (pre ++ batches ++ post, ⟨s.best, s.vCalls, true⟩)
  else
    let wr := if cfg.hasWriter then [Event.writerScalars e] else []
    if chkCond cfg e then
      let acc := cfg.valAcc s.vCalls
      let vev := [Event.validateEpoch e (e + cfg.startEpoch) cfg.hasWriter]
      if s.best ≤ acc then
        (pre ++ batches ++ post ++ wr ++ vev ++ [Event.bestUpdate e acc]
           ++ (if cfg.save then [Event.saveCall e] else []),
         ⟨acc, s.vCalls + 1, false⟩)
      else
        (pre ++ batches ++ post ++ wr ++ vev, ⟨s.best, s.vCalls + 1, false⟩)
    else
      (pre ++ batches ++ post ++ wr, s)

/-- The epoch loop: once the run has crashed, nothing further happens. -/
def loopAux (cfg : TrainCfg) (amp : Bool) (totalIter : Int) :
    List Int → LoopState → List Event × LoopState
  | [], s => ([], s)
  | e :: es, s =>
    if s.crashed then ([], s)
    else
      let p := epochStep cfg amp totalIter e s
      let q := loopAux cfg amp totalIter es p.2
      (p.1 ++ q.1, q.2)

/-- Trace emitted before the epoch loop (lines 56-75): scaler creation,
the initial validation pass (with writer=None hard-coded at line 64),
and the resume walk of the learning-rate schedule. -/
def preLoopTrace (cfg : TrainCfg) (amp : Bool) : List Event :=
  (if amp then [Event.scalerCreate] else [])
  ++ (if cfg.validateInterval != 0 then [Event.validateInit cfg.startEpoch false] else [])
  ++ (if cfg.resume != 0 && cfg.hasLrScheduler then
        List.replicate cfg.resume.toNat Event.schedStep else [])

/-- Result of a call of train: the full trace, the final value of the
best_acc local (none when validate_interval = 0, in which case the
variable is never assigned), and whether the run aborted. -/
structure TrainResult where
  trace : List Event
  best : Option ℚ
  crashed : Bool
deriving DecidableEq

/-- Mixed precision is resolved against the accelerator count at lines
57-58: amp is silently forced off when env has no gpus. -/
def ampResolved (cfg : TrainCfg) : Bool :=
  cfg.amp && !(cfg.numGpus == 0)

/-- total_iter = (epochs - resume) * len(loader_train), line 71. -/
def totalIterOf (cfg : TrainCfg) : Int :=
  (cfg.epochs - cfg.resume) * (cfg.lenLoaderTrain : Int)

/-- State entering the epoch loop: when validate_interval != 0, best_acc
is initialised from the initial validation pass (line 62), which is
validate_fn call number 0. -/
def initState (cfg : TrainCfg) : LoopState :=
  if cfg.validateInterval != 0 then ⟨cfg.valAcc 0, 1, false⟩ else ⟨0, 0, false⟩

/-- The whole epoch loop of train. -/
def trainLoop (cfg : TrainCfg) : List Event × LoopState :=
  loopAux cfg (ampResolved cfg) (totalIterOf cfg) (epochList cfg) (initState cfg)

/-- Shallow embedding of train (src/trojanzoo/utils/train.py lines
23-198). -/
def train (cfg : TrainCfg) : TrainResult :=
  if cfg.epochs ≤ 0 then ⟨[], none, false⟩
  else
    ⟨preLoopTrace cfg (ampResolved cfg) ++ (trainLoop cfg).1
       ++ (if (trainLoop cfg).2.crashed then [] else [Event.moduleZeroGrad]),
     if cfg.validateInterval != 0 then some (trainLoop cfg).2.best else none,
     (trainLoop cfg).2.crashed⟩

/-!
Model of validate (src/trojanzoo/utils/train.py lines 201-254).  The
model carries the module state explicitly: abstract parameters plus the
train/eval mode flag.  The injected collaborators (data extraction,
forward pass, loss, accuracy) are abstract functions; the forward pass
reads the parameters and nothing in the loop writes them.
-/

/-- Module state visible to validate: abstract parameters and the
train/eval mode flag set by module.train() / module.eval(). -/
structure ModuleState (P : Type) where
  params : P
  training : Bool
deriving DecidableEq

/-- Arguments of one validate call: the batches of the loader and the
injected collaborator functions (types: B batch, I input, L label,
O output). -/
structure ValidateArgs (P B I L O : Type) where
  loader : List B
  get_data_fn : B → I × L
  forward_fn : P → I → O
  loss_fn : I → L → O → ℚ
  accuracy_fn : O → L → ℚ × ℚ
  labelSize : L → Nat

/-- Meters of the validate loop (loss, top1, top5). -/
structure ValMeters where
  loss : SmoothedValue
  top1 : SmoothedValue
  top5 : SmoothedValue
deriving DecidableEq

/-- One batch of the validate loop (lines 234-244). -/
def validateBatch {P B I L O : Type} (p : P) (a : ValidateArgs P B I L O)
    (m : ValMeters) (b : B) : ValMeters :=
  let d := a.get_data_fn b
  let o := a.forward_fn p d.1
  let l := a.loss_fn d.1 d.2 o
  let acc := a.accuracy_fn o d.2
  let n := a.labelSize d.2
  ⟨m.loss.update l n, m.top1.update acc.1 n, m.top5.update acc.2 n⟩

/-- Shallow embedding of validate: place the module in eval mode, fold
the meters over the loader, return the lifetime averages together with
the module state after the call. -/
def validate {P B I L O : Type} (m : ModuleState P) (a : ValidateArgs P B I L O) :
    (ℚ × ℚ) × ModuleState P :=
  let m2 : ModuleState P := ⟨m.params, false⟩
  let fin := a.loader.foldl (validateBatch m2.params a)
    ⟨SmoothedValue.empty, SmoothedValue.empty, SmoothedValue.empty⟩
  ((fin.loss.global_avg, fin.top1.global_avg), m2)

/-!
Generic list helpers for reasoning about the ite-built trace segments.
-/

theorem mem_ite_nil_iff {α : Type} {c : Prop} [Decidable c] {l : List α} {a : α} :
    (a ∈ (if c then l else [])) ↔ (c ∧ a ∈ l) := by
  split <;> simp_all

theorem mem_ite_iff {α : Type} {c : Prop} [Decidable c] {l r : List α} {a : α} :
    (a ∈ (if c then l else r)) ↔ ((c ∧ a ∈ l) ∨ (¬c ∧ a ∈ r)) := by
  split <;> simp_all

theorem mem_intRange {a b e : Int} :
    e ∈ intRange a b ↔ a ≤ e ∧ e < b := by
  unfold intRange
  rw [List.mem_map]
  constructor
  · rintro ⟨k, hk, rfl⟩
    rw [List.mem_range] at hk
    omega
  · intro h
    exact ⟨(e - a).toNat, List.mem_range.mpr (by omega), by omega⟩

theorem intRange_nodup (a b : Int) : (intRange a b).Nodup :=
  (List.nodup_range _).map (fun x y h => by omega)

theorem mem_epochList {cfg : TrainCfg} {e : Int} :
    e ∈ epochList cfg ↔ cfg.resume + 1 ≤ e ∧ e ≤ cfg.epochs := by
  simp only [epochList, List.mem_map]
  constructor
  · rintro ⟨x, hx, rfl⟩
    rw [mem_intRange] at hx
    omega
  · intro h
    exact ⟨e - 1, mem_intRange.mpr (by omega), by omega⟩

theorem epochList_nodup (cfg : TrainCfg) : (epochList cfg).Nodup :=
  (intRange_nodup _ _).map (fun x y h => by omega)

/-!
Membership lemmas for the trace segments: which events a batch
iteration, an epoch, or the whole loop can emit, and with which tags.
-/

theorem saveCall_not_mem_batchTrace {cfg : TrainCfg} {amp : Bool} {t e1 : Int} {i1 : Nat}
    {e : Int} : Event.saveCall e ∉ batchTrace cfg amp t e1 i1 := by
  simp [batchTrace, mem_ite_iff, mem_ite_nil_iff]

theorem bestUpdate_not_mem_batchTrace {cfg : TrainCfg} {amp : Bool} {t e1 : Int} {i1 : Nat}
    {e : Int} {q : ℚ} : Event.bestUpdate e q ∉ batchTrace cfg amp t e1 i1 := by
  simp [batchTrace, mem_ite_iff, mem_ite_nil_iff]

theorem validateEpoch_not_mem_batchTrace {cfg : TrainCfg} {amp : Bool} {t e1 : Int} {i1 : Nat}
    {e a : Int} {w : Bool} : Event.validateEpoch e a w ∉ batchTrace cfg amp t e1 i1 := by
  simp [batchTrace, mem_ite_iff, mem_ite_nil_iff]

theorem validateInit_not_mem_batchTrace {cfg : TrainCfg} {amp : Bool} {t e1 : Int} {i1 : Nat}
    {a : Int} {w : Bool} : Event.validateInit a w ∉ batchTrace cfg amp t e1 i1 := by
  simp [batchTrace, mem_ite_iff, mem_ite_nil_iff]

theorem epochBegin_not_mem_batchTrace {cfg : TrainCfg} {amp : Bool} {t e1 : Int} {i1 : Nat}
    {e : Int} : Event.epochBegin e ∉ batchTrace cfg amp t e1 i1 := by
  simp [batchTrace, mem_ite_iff, mem_ite_nil_iff]

theorem scalerCreate_not_mem_batchTrace {cfg : TrainCfg} {amp : Bool} {t e1 : Int} {i1 : Nat} :
    Event.scalerCreate ∉ batchTrace cfg amp t e1 i1 := by
  simp [batchTrace, mem_ite_iff, mem_ite_nil_iff]

theorem afterLoss_mem_batchTrace {cfg : TrainCfg} {amp : Bool} {t e1 : Int} {i1 : Nat}
    {e : Int} {i : Nat} {it tt : Int} :
    Event.afterLoss e i it tt ∈ batchTrace cfg amp t e1 i1 ↔
      (cfg.hasAfterLossFn = true ∧ e = e1 ∧ i = i1
        ∧ it = e1 * (cfg.lenLoaderTrain : Int) + i1 ∧ tt = t) := by
  simp [batchTrace, mem_ite_iff, mem_ite_nil_iff]
  cases amp <;> simp

theorem emaUpdate_mem_batchTrace {cfg : TrainCfg} {amp : Bool} {t e1 : Int} {i1 : Nat}
    {e : Int} {i : Nat} :
    Event.emaUpdate e i ∈ batchTrace cfg amp t e1 i1 ↔
      (cfg.hasModelEma = true ∧ Int.fmod (i1 : Int) cfg.modelEmaSteps = 0
        ∧ e = e1 ∧ i = i1) := by
  simp [batchTrace, mem_ite_iff, mem_ite_nil_iff]
  tauto

theorem emaReset_mem_batchTrace {cfg : TrainCfg} {amp : Bool} {t e1 : Int} {i1 : Nat}
    {e : Int} {i : Nat} :
    Event.emaReset e i ∈ batchTrace cfg amp t e1 i1 ↔
      (cfg.hasModelEma = true ∧ Int.fmod (i1 : Int) cfg.modelEmaSteps = 0
        ∧ e1 ≤ cfg.lrWarmupEpochs ∧ e = e1 ∧ i = i1) := by
  simp [batchTrace, mem_ite_iff, mem_ite_nil_iff]
  tauto

theorem saveCall_not_mem_epochBatches {cfg : TrainCfg} {amp : Bool} {t e1 : Int} {e : Int} :
    Event.saveCall e ∉ epochBatches cfg amp t e1 := by
  simp [epochBatches, List.mem_flatMap, saveCall_not_mem_batchTrace]

theorem bestUpdate_not_mem_epochBatches {cfg : TrainCfg} {amp : Bool} {t e1 : Int}
    {e : Int} {q : ℚ} : Event.bestUpdate e q ∉ epochBatches cfg amp t e1 := by
  simp [epochBatches, List.mem_flatMap, bestUpdate_not_mem_batchTrace]

theorem validateEpoch_not_mem_epochBatches {cfg : TrainCfg} {amp : Bool} {t e1 : Int}
    {e a : Int} {w : Bool} : Event.validateEpoch e a w ∉ epochBatches cfg amp t e1 := by
  simp [epochBatches, List.mem_flatMap, validateEpoch_not_mem_batchTrace]

theorem validateInit_not_mem_epochBatches {cfg : TrainCfg} {amp : Bool} {t e1 : Int}
    {a : Int} {w : Bool} : Event.validateInit a w ∉ epochBatches cfg amp t e1 := by
  simp [epochBatches, List.mem_flatMap, validateInit_not_mem_batchTrace]

theorem epochBegin_not_mem_epochBatches {cfg : TrainCfg} {amp : Bool} {t e1 : Int}
    {e : Int} : Event.epochBegin e ∉ epochBatches cfg amp t e1 := by
  simp [epochBatches, List.mem_flatMap, epochBegin_not_mem_batchTrace]

theorem scalerCreate_not_mem_epochBatches {cfg : TrainCfg} {amp : Bool} {t e1 : Int} :
    Event.scalerCreate ∉ epochBatches cfg amp t e1 := by
  simp [epochBatches, List.mem_flatMap, scalerCreate_not_mem_batchTrace]

theorem afterLoss_mem_epochBatches {cfg : TrainCfg} {amp : Bool} {t e1 : Int}
    {e : Int} {i : Nat} {it tt : Int} :
    Event.afterLoss e i it tt ∈ epochBatches cfg amp t e1 ↔
      (cfg.hasAfterLossFn = true ∧ e = e1 ∧ i < cfg.lenLoaderTrain
        ∧ it = e1 * (cfg.lenLoaderTrain : Int) + i ∧ tt = t) := by
  simp only [epochBatches, List.mem_flatMap, List.mem_range, afterLoss_mem_batchTrace]
  constructor
  · rintro ⟨i1, hi1, h1, rfl, rfl, rfl, rfl⟩
    exact ⟨h1, rfl, hi1, rfl, rfl⟩
  · rintro ⟨h1, rfl, hi, rfl, rfl⟩
    exact ⟨i, hi, h1, rfl, rfl, rfl, rfl⟩

theorem emaUpdate_mem_epochBatches {cfg : TrainCfg} {amp : Bool} {t e1 : Int}
    {e : Int} {i : Nat} :
    Event.emaUpdate e i ∈ epochBatches cfg amp t e1 ↔
      (cfg.hasModelEma = true ∧ i < cfg.lenLoaderTrain
        ∧ Int.fmod (i : Int) cfg.modelEmaSteps = 0 ∧ e = e1) := by
  simp only [epochBatches, List.mem_flatMap, List.mem_range, emaUpdate_mem_batchTrace]
  constructor
  · rintro ⟨i1, hi1, h1, h2, rfl, rfl⟩
    exact ⟨h1, hi1, h2, rfl⟩
  · rintro ⟨h1, hi, h2, rfl⟩
    exact ⟨i, hi, h1, h2, rfl, rfl⟩

theorem emaReset_mem_epochBatches {cfg : TrainCfg} {amp : Bool} {t e1 : Int}
    {e : Int} {i : Nat} :
    Event.emaReset e i ∈ epochBatches cfg amp t e1 ↔
      (cfg.hasModelEma = true ∧ i < cfg.lenLoaderTrain
        ∧ Int.fmod (i : Int) cfg.modelEmaSteps = 0
        ∧ e1 ≤ cfg.lrWarmupEpochs ∧ e = e1) := by
  simp only [epochBatches, List.mem_flatMap, List.mem_range, emaReset_mem_batchTrace]
  constructor
  · rintro ⟨i1, hi1, h1, h2, h3, rfl, rfl⟩
    exact ⟨h1, hi1, h2, h3, rfl⟩
  · rintro ⟨h1, hi, h2, h3, rfl⟩
    exact ⟨i, hi, h1, h2, h3, rfl, rfl⟩

theorem validateEpoch_mem_epochStep {cfg : TrainCfg} {amp : Bool} {t e1 : Int}
    {s : LoopState} {e a : Int} {w : Bool} :
    Event.validateEpoch e a w ∈ (epochStep cfg amp t e1 s).1 ↔
      (e = e1 ∧ a = e1 + cfg.startEpoch ∧ w = cfg.hasWriter
        ∧ epochSampleCount cfg e1 ≠ 0 ∧ chkCond cfg e1 = true) := by
  simp only [epochStep, beq_iff_eq]
  split_ifs with h1 h2 h3 h4 <;>
    simp_all [mem_ite_iff, mem_ite_nil_iff, validateEpoch_not_mem_epochBatches]

theorem saveCall_mem_epochStep {cfg : TrainCfg} {amp : Bool} {t e1 : Int}
    {s : LoopState} {e : Int} :
    Event.saveCall e ∈ (epochStep cfg amp t e1 s).1 ↔
      (e = e1 ∧ epochSampleCount cfg e1 ≠ 0 ∧ chkCond cfg e1 = true
        ∧ cfg.save = true ∧ s.best ≤ cfg.valAcc s.vCalls) := by
  simp only [epochStep, beq_iff_eq]
  split_ifs with h1 h2 h3 h4 <;>
    simp_all [mem_ite_iff, mem_ite_nil_iff, saveCall_not_mem_epochBatches]

theorem bestUpdate_mem_epochStep {cfg : TrainCfg} {amp : Bool} {t e1 : Int}
    {s : LoopState} {e : Int} {q : ℚ} :
    Event.bestUpdate e q ∈ (epochStep cfg amp t e1 s).1 →
      (e = e1 ∧ chkCond cfg e1 = true) := by
  simp only [epochStep, beq_iff_eq]
  split_ifs with h1 h2 h3 h4 <;>
    simp_all [mem_ite_iff, mem_ite_nil_iff, bestUpdate_not_mem_epochBatches]

theorem afterLoss_mem_epochStep {cfg : TrainCfg} {amp : Bool} {t e1 : Int}
    {s : LoopState} {e : Int} {i : Nat} {it tt : Int} :
    Event.afterLoss e i it tt ∈ (epochStep cfg amp t e1 s).1 ↔
      Event.afterLoss e i it tt ∈ epochBatches cfg amp t e1 := by
  simp only [epochStep]
  split_ifs with h1 h2 h3 h4
  all_goals simp [mem_ite_iff, mem_ite_nil_iff]

theorem epochBegin_mem_epochStep {cfg : TrainCfg} {amp : Bool} {t e1 : Int}
    {s : LoopState} {e : Int} :
    Event.epochBegin e ∈ (epochStep cfg amp t e1 s).1 ↔ e = e1 := by
  simp only [epochStep]
  split_ifs with h1 h2 h3 h4
  all_goals
    simp [mem_ite_iff, mem_ite_nil_iff, epochBegin_not_mem_epochBatches]

theorem validateInit_not_mem_epochStep {cfg : TrainCfg} {amp : Bool} {t e1 : Int}
    {s : LoopState} {a : Int} {w : Bool} :
    Event.validateInit a w ∉ (epochStep cfg amp t e1 s).1 := by
  simp only [epochStep]
  split_ifs with h1 h2 h3 h4
  all_goals
    simp [mem_ite_iff, mem_ite_nil_iff, validateInit_not_mem_epochBatches]

theorem scalerCreate_not_mem_epochStep {cfg : TrainCfg} {amp : Bool} {t e1 : Int}
    {s : LoopState} :
    Event.scalerCreate ∉ (epochStep cfg amp t e1 s).1 := by
  simp only [epochStep]
  split_ifs with h1 h2 h3 h4
  all_goals
    simp [mem_ite_iff, mem_ite_nil_iff, scalerCreate_not_mem_epochBatches]

/-!
Structural lemmas about the epoch loop.
-/

theorem epochStep_state_no_chk {cfg : TrainCfg} {amp : Bool} {t e1 : Int} {s : LoopState}
    (hc : chkCond cfg e1 = false) (hn : epochSampleCount cfg e1 ≠ 0) :
    (epochStep cfg amp t e1 s).2 = s := by
  simp [epochStep, beq_iff_eq, hc, hn]

theorem epochStep_nocrash {cfg : TrainCfg} {amp : Bool} {t e1 : Int} {s : LoopState}
    (hn : epochSampleCount cfg e1 ≠ 0) (hs : s.crashed = false) :
    (epochStep cfg amp t e1 s).2.crashed = false := by
  simp only [epochStep, beq_iff_eq]
  split_ifs <;> simp_all

theorem epochStep_chk_state {cfg : TrainCfg} {amp : Bool} {t e1 : Int} {s : LoopState}
    (hc : chkCond cfg e1 = true) (hn : epochSampleCount cfg e1 ≠ 0) :
    (epochStep cfg amp t e1 s).2 =
      (if s.best ≤ cfg.valAcc s.vCalls then (⟨cfg.valAcc s.vCalls, s.vCalls + 1, false⟩ : LoopState)
       else ⟨s.best, s.vCalls + 1, false⟩) := by
  simp only [epochStep, beq_iff_eq]
  split_ifs <;> simp_all

theorem loopAux_crashed {cfg : TrainCfg} {amp : Bool} {t : Int} {es : List Int}
    {s : LoopState} (h : s.crashed = true) :
    loopAux cfg amp t es s = ([], s) := by
  cases es <;> simp [loopAux, h]

theorem loopAux_cons {cfg : TrainCfg} {amp : Bool} {t : Int} {e : Int} {es : List Int}
    {s : LoopState} (h : s.crashed = false) :
    loopAux cfg amp t (e :: es) s =
      ((epochStep cfg amp t e s).1 ++ (loopAux cfg amp t es (epochStep cfg amp t e s).2).1,
       (loopAux cfg amp t es (epochStep cfg amp t e s).2).2) := by
  simp [loopAux, h]

theorem loopAux_append {cfg : TrainCfg} {amp : Bool} {t : Int} (l1 l2 : List Int)
    (s : LoopState) :
    loopAux cfg amp t (l1 ++ l2) s =
      ((loopAux cfg amp t l1 s).1 ++ (loopAux cfg amp t l2 (loopAux cfg amp t l1 s).2).1,
       (loopAux cfg amp t l2 (loopAux cfg amp t l1 s).2).2) := by
  induction l1 generalizing s with
  | nil => simp [loopAux]
  | cons e es ih =>
    by_cases h : s.crashed
    · rw [loopAux_crashed h, loopAux_crashed h, loopAux_crashed h]
      simp
    · rw [List.cons_append, loopAux_cons (by simp [h]), loopAux_cons (by simp [h]), ih]
      simp

theorem mem_loopAux {cfg : TrainCfg} {amp : Bool} {t : Int} {es : List Int}
    {s : LoopState} {ev : Event} (h : ev ∈ (loopAux cfg amp t es s).1) :
    ∃ e ∈ es, ∃ s1, ev ∈ (epochStep cfg amp t e s1).1 := by
  induction es generalizing s with
  | nil => simp [loopAux] at h
  | cons e1 es ih =>
    by_cases hc : s.crashed
    · rw [loopAux_crashed hc] at h
      simp at h
    · rw [loopAux_cons (by simp [hc])] at h
      rcases List.mem_append.mp h with h1 | h2
      · exact ⟨e1, List.mem_cons_self _ _, s, h1⟩
      · obtain ⟨e2, he2, s2, hs2⟩ := ih h2
        exact ⟨e2, List.mem_cons_of_mem _ he2, s2, hs2⟩

theorem loopAux_state_frozen {cfg : TrainCfg} {amp : Bool} {t : Int} {es : List Int}
    {s : LoopState}
    (hns : ∀ e ∈ es, chkCond cfg e = false ∧ epochSampleCount cfg e ≠ 0)
    (hc : s.crashed = false) :
    (loopAux cfg amp t es s).2 = s := by
  induction es generalizing s with
  | nil => simp [loopAux]
  | cons e1 es ih =>
    rw [loopAux_cons hc]
    have h1 := hns e1 (List.mem_cons_self _ _)
    rw [epochStep_state_no_chk h1.1 h1.2]
    exact ih (fun e he => hns e (List.mem_cons_of_mem _ he)) hc

theorem loopAux_nocrash {cfg : TrainCfg} {amp : Bool} {t : Int} {es : List Int}
    {s : LoopState}
    (hns : ∀ e ∈ es, epochSampleCount cfg e ≠ 0)
    (hc : s.crashed = false) :
    (loopAux cfg amp t es s).2.crashed = false := by
  induction es generalizing s with
  | nil => simpa [loopAux]
  | cons e1 es ih =>
    rw [loopAux_cons hc]
    exact ih (fun e he => hns e (List.mem_cons_of_mem _ he))
      (epochStep_nocrash (hns e1 (List.mem_cons_self _ _)) hc)

/-!
Shared concrete configurations for witnesses and counterexamples.
-/

/-- Base concrete configuration: 4 epochs, validation every epoch, one
training batch of size one per epoch, saving enabled, no optional
collaborators. -/
def baseCfg : TrainCfg :=
  { epochs := 4, resume := 0, startEpoch := 0, validateInterval := 1,
    save := true, amp := false, numGpus := 0, lenLoaderTrain := 1,
    hasEpochFn := false, hasAfterLossFn := true, hasLrScheduler := false,
    lrSchedulerFreq := Freq.epochs, hasModelEma := false, modelEmaSteps := 32,
    lrWarmupEpochs := 0, hasGradClip := false, hasPreConditioner := false,
    changeTrainEval := true, hasWriter := false,
    valAcc := fun _ => 0, batchSize := fun _ _ => 1 }

/-!
Claim theorems.
-/

/-- C3: for every call of train with epochs ≤ 0, the call returns
immediately as a no-op: the trace is empty (so no optimizer step and no
hook of any kind is invoked, and no state is touched), the best-accuracy
local is never assigned, and no error is raised. -/
theorem train_nonpos_epochs_noop (cfg : TrainCfg) (h : cfg.epochs ≤ 0) :
    train cfg = ⟨[], none, false⟩ := by
  simp [train, h]

/-- Witness for C3 at the concrete configuration with epochs = 0. -/
theorem train_nonpos_epochs_noop_witness :
    ({ baseCfg with epochs := 0 } : TrainCfg).epochs ≤ 0
      ∧ train { baseCfg with epochs := 0 } = ⟨[], none, false⟩ :=
  ⟨by decide, train_nonpos_epochs_noop { baseCfg with epochs := 0 } (by decide)⟩

/-- C4: when an EMA tracker is configured with positive update stride s,
within every epoch the shadow-weight update happens exactly on the batch
indices i < len with i mod s = 0, and the averaging-counter reset
happens exactly on those same indices when the epoch number is at most
the warmup epoch count.  (The positivity hypothesis on the stride
mirrors Python, where i percent 0 would raise ZeroDivisionError.) -/
theorem ema_update_schedule (cfg : TrainCfg) (amp : Bool) (t e : Int) (i : Nat)
    (hme : cfg.hasModelEma = true) (hs : 0 < cfg.modelEmaSteps) :
    (Event.emaUpdate e i ∈ epochBatches cfg amp t e ↔
      (i < cfg.lenLoaderTrain ∧ Int.fmod (i : Int) cfg.modelEmaSteps = 0)) ∧
    (Event.emaReset e i ∈ epochBatches cfg amp t e ↔
      (i < cfg.lenLoaderTrain ∧ Int.fmod (i : Int) cfg.modelEmaSteps = 0
        ∧ e ≤ cfg.lrWarmupEpochs)) := by
  constructor
  · rw [emaUpdate_mem_epochBatches]
    simp [hme]
  · rw [emaReset_mem_epochBatches]
    simp [hme]

/-- Concrete configuration with the EMA tracker enabled (stride 32,
warmup 2 epochs, 33 batches per epoch). -/
def emaCfg : TrainCfg :=
  { baseCfg with hasModelEma := true, lrWarmupEpochs := 2, lenLoaderTrain := 33 }

/-- Witness for C4: in epoch 1 of emaCfg, batch 32 updates the shadow
weights and resets the averaging counter (epoch 1 ≤ warmup 2). -/
theorem ema_update_schedule_witness :
    Event.emaUpdate 1 32 ∈ epochBatches emaCfg false 0 1
      ∧ Event.emaReset 1 32 ∈ epochBatches emaCfg false 0 1 :=
  ⟨(ema_update_schedule emaCfg false 0 1 32 rfl (by decide)).1.mpr (by decide),
   (ema_update_schedule emaCfg false 0 1 32 rfl (by decide)).2.mpr (by decide)⟩

/-- C7: validate is pure up to the mode switch.  Calling validate again
from the module state the first call left behind returns the identical
(loss, accuracy) pair; the parameters are untouched, and the only state
change is the train/eval mode flag being set to eval. -/
theorem validate_pure {P B I L O : Type} (m : ModuleState P) (a : ValidateArgs P B I L O) :
    (validate ((validate m a).2) a).1 = (validate m a).1
      ∧ ((validate m a).2).params = m.params
      ∧ (validate m a).2 = ⟨m.params, false⟩ :=
  ⟨rfl, rfl, rfl⟩

/-- Weight of one batch in the validate loop: int(_label.size(0)). -/
def batchWeight {P B I L O : Type} (a : ValidateArgs P B I L O) (b : B) : Nat :=
  a.labelSize (a.get_data_fn b).2

/-- Loss value of one batch under parameters p. -/
def batchLossVal {P B I L O : Type} (p : P) (a : ValidateArgs P B I L O) (b : B) : ℚ :=
  a.loss_fn (a.get_data_fn b).1 (a.get_data_fn b).2 (a.forward_fn p (a.get_data_fn b).1)

/-- Top-1 accuracy value of one batch under parameters p. -/
def batchTop1Val {P B I L O : Type} (p : P) (a : ValidateArgs P B I L O) (b : B) : ℚ :=
  (a.accuracy_fn (a.forward_fn p (a.get_data_fn b).1) (a.get_data_fn b).2).1

/-- Top-5 accuracy value of one batch under parameters p. -/
def batchTop5Val {P B I L O : Type} (p : P) (a : ValidateArgs P B I L O) (b : B) : ℚ :=
  (a.accuracy_fn (a.forward_fn p (a.get_data_fn b).1) (a.get_data_fn b).2).2

theorem validate_fold_meters {P B I L O : Type} (p : P) (a : ValidateArgs P B I L O)
    (l : List B) (ms : ValMeters) :
    l.foldl (validateBatch p a) ms =
      ⟨⟨ms.loss.total + (l.map (fun b => batchLossVal p a b * (batchWeight a b : ℚ))).sum,
        ms.loss.count + (l.map (fun b => batchWeight a b)).sum⟩,
       ⟨ms.top1.total + (l.map (fun b => batchTop1Val p a b * (batchWeight a b : ℚ))).sum,
        ms.top1.count + (l.map (fun b => batchWeight a b)).sum⟩,
       ⟨ms.top5.total + (l.map (fun b => batchTop5Val p a b * (batchWeight a b : ℚ))).sum,
        ms.top5.count + (l.map (fun b => batchWeight a b)).sum⟩⟩ := by
  induction l generalizing ms with
  | nil => simp
  | cons b l ih =>
    rw [List.foldl_cons, ih]
    simp only [validateBatch, SmoothedValue.update, List.map_cons, List.sum_cons,
      batchLossVal, batchTop1Val, batchTop5Val, batchWeight]
    simp only [ValMeters.mk.injEq, SmoothedValue.mk.injEq]
    refine ⟨⟨by ring, by omega⟩, ⟨by ring, by omega⟩, by ring, by omega⟩

/-- C6: for every finite data source whose total sample count is
positive (Python raises ZeroDivisionError on an empty source), validate
folds each batch of the single pass into the meters weighted by that
batch size and returns the lifetime weighted averages
(sum of loss times size over total, sum of top1 times size over total);
the bounded window of the smoothed metric plays no role in the result. -/
theorem validate_weighted_avg {P B I L O : Type} (m : ModuleState P)
    (a : ValidateArgs P B I L O)
    (h : 0 < (a.loader.map (fun b => batchWeight a b)).sum) :
    (validate m a).1 =
      ((a.loader.map (fun b => batchLossVal m.params a b * (batchWeight a b : ℚ))).sum
          / (((a.loader.map (fun b => batchWeight a b)).sum : Nat) : ℚ),
       (a.loader.map (fun b => batchTop1Val m.params a b * (batchWeight a b : ℚ))).sum
          / (((a.loader.map (fun b => batchWeight a b)).sum : Nat) : ℚ)) := by
  simp [validate, validate_fold_meters, SmoothedValue.global_avg, SmoothedValue.empty]

/-- Concrete validate arguments for the C6 witness: two batches with
weights 1 and 2, losses 2 and 4, top-1 accuracies 0 and 100. -/
def valArgsW : ValidateArgs Unit Nat Unit Nat Nat :=
  { loader := [0, 1],
    get_data_fn := fun b => ((), b),
    forward_fn := fun _ _ => 0,
    loss_fn := fun _ l _ => (l : ℚ) * 2 + 2,
    accuracy_fn := fun _ l => ((l : ℚ) * 100, 100),
    labelSize := fun l => l + 1 }

/-- Witness for C6: on valArgsW the returned pair is the weighted
average ((2*1 + 4*2)/3, (0*1 + 100*2)/3). -/
theorem validate_weighted_avg_witness :
    (validate (⟨(), true⟩ : ModuleState Unit) valArgsW).1 = (10 / 3, 200 / 3) := by
  rw [validate_weighted_avg (⟨(), true⟩ : ModuleState Unit) valArgsW (by decide)]
  norm_num [valArgsW, batchLossVal, batchTop1Val, batchWeight, Prod.ext_iff]

theorem train_trace_eq {cfg : TrainCfg} (hE : ¬cfg.epochs ≤ 0) :
    (train cfg).trace =
      preLoopTrace cfg (ampResolved cfg) ++ (trainLoop cfg).1
        ++ (if (trainLoop cfg).2.crashed then [] else [Event.moduleZeroGrad]) := by
  simp [train, hE]

theorem mem_train_trace {cfg : TrainCfg} {ev : Event} (h : ev ∈ (train cfg).trace) :
    ev ∈ preLoopTrace cfg (ampResolved cfg)
      ∨ (∃ e ∈ epochList cfg, ∃ s1,
          ev ∈ (epochStep cfg (ampResolved cfg) (totalIterOf cfg) e s1).1)
      ∨ ev = Event.moduleZeroGrad := by
  by_cases hE : cfg.epochs ≤ 0
  · simp [train, hE] at h
  · rw [train_trace_eq hE] at h
    rcases List.mem_append.mp h with h1 | h2
    · rcases List.mem_append.mp h1 with h1a | h1b
      · exact Or.inl h1a
      · exact Or.inr (Or.inl (mem_loopAux h1b))
    · right; right
      rcases Classical.em ((trainLoop cfg).2.crashed = true) with hc | hc
      · simp [hc] at h2
      · simp only [Bool.not_eq_true] at hc
        simp [hc] at h2
        exact h2

theorem preLoopTrace_events {cfg : TrainCfg} {amp : Bool} {ev : Event} :
    ev ∈ preLoopTrace cfg amp →
      ev = Event.scalerCreate
      ∨ ev = Event.validateInit cfg.startEpoch false
      ∨ ev = Event.schedStep := by
  intro h
  simp only [preLoopTrace, List.mem_append, mem_ite_nil_iff, List.mem_singleton,
    List.mem_replicate] at h
  tauto

theorem backwardAmp_not_mem_batchTrace_false {cfg : TrainCfg} {t e1 : Int} {i1 : Nat} :
    Event.backwardAmp ∉ batchTrace cfg false t e1 i1 := by
  simp [batchTrace, mem_ite_iff, mem_ite_nil_iff]

theorem backwardAmp_not_mem_epochBatches_false {cfg : TrainCfg} {t e1 : Int} :
    Event.backwardAmp ∉ epochBatches cfg false t e1 := by
  simp [epochBatches, List.mem_flatMap, backwardAmp_not_mem_batchTrace_false]

theorem backwardAmp_not_mem_epochStep_false {cfg : TrainCfg} {t e1 : Int} {s : LoopState} :
    Event.backwardAmp ∉ (epochStep cfg false t e1 s).1 := by
  simp only [epochStep, beq_iff_eq]
  split_ifs <;>
    simp [mem_ite_iff, mem_ite_nil_iff, backwardAmp_not_mem_epochBatches_false]

theorem epochStep_amp_congr (cfg : TrainCfg) (x : Bool) (amp : Bool) (t e : Int)
    (s : LoopState) :
    epochStep { cfg with amp := x } amp t e s = epochStep cfg amp t e s := rfl

theorem loopAux_amp_congr (cfg : TrainCfg) (x : Bool) (amp : Bool) (t : Int)
    (es : List Int) (s : LoopState) :
    loopAux { cfg with amp := x } amp t es s = loopAux cfg amp t es s := by
  induction es generalizing s with
  | nil => rfl
  | cons e es ih =>
    by_cases h : s.crashed
    · rw [loopAux_crashed h, loopAux_crashed h]
    · rw [loopAux_cons (by simp [h]), loopAux_cons (by simp [h]),
        epochStep_amp_congr, ih]

/-- C8: when mixed precision is requested but zero accelerators are
available, amp is silently disabled rather than raising: the whole call
behaves identically to the call with amp off, no loss scaler is created,
and no batch takes the mixed-precision backward path. -/
theorem amp_silently_disabled (cfg : TrainCfg) (ha : cfg.amp = true)
    (hg : cfg.numGpus = 0) :
    train cfg = train { cfg with amp := false }
      ∧ Event.scalerCreate ∉ (train cfg).trace
      ∧ Event.backwardAmp ∉ (train cfg).trace := by
  have hamp : ampResolved cfg = false := by
    simp [ampResolved, hg]
  have hamp2 : ampResolved { cfg with amp := false } = false := by
    simp [ampResolved]
  refine ⟨?_, ?_, ?_⟩
  · unfold train trainLoop
    rw [hamp, hamp2, loopAux_amp_congr cfg false]
    rfl
  · intro hmem
    rcases mem_train_trace hmem with h1 | ⟨e, he, s1, h2⟩ | h3
    · rw [hamp] at h1
      simp [preLoopTrace, mem_ite_nil_iff, List.mem_replicate] at h1
    · exact scalerCreate_not_mem_epochStep h2
    · exact Event.noConfusion h3
  · intro hmem
    rcases mem_train_trace hmem with h1 | ⟨e, he, s1, h2⟩ | h3
    · rw [hamp] at h1
      simp [preLoopTrace, mem_ite_nil_iff, List.mem_replicate] at h1
    · rw [hamp] at h2
      exact backwardAmp_not_mem_epochStep_false h2
    · exact Event.noConfusion h3

/-- Witness for C8 at a concrete configuration requesting amp with zero
gpus. -/
theorem amp_silently_disabled_witness :
    train { baseCfg with amp := true } = train { baseCfg with amp := false }
      ∧ Event.scalerCreate ∉ (train { baseCfg with amp := true }).trace
      ∧ Event.backwardAmp ∉ (train { baseCfg with amp := true }).trace :=
  amp_silently_disabled { baseCfg with amp := true } rfl rfl

theorem chkCond_iff {cfg : TrainCfg} {e : Int} :
    chkCond cfg e = true ↔
      (cfg.validateInterval ≠ 0
        ∧ (Int.fmod e cfg.validateInterval = 0 ∨ e = cfg.epochs)) := by
  simp [chkCond]

theorem chkCond_vi0 {cfg : TrainCfg} {e : Int} (h : cfg.validateInterval = 0) :
    chkCond cfg e = false := by
  simp [chkCond, h]

theorem epochStep_mem_train (cfg : TrainCfg) (e : Int) {ev : Event}
    (hE : 0 < cfg.epochs) (he : e ∈ epochList cfg)
    (hnc : ∀ e1 ∈ epochList cfg, epochSampleCount cfg e1 ≠ 0)
    (hev : ∀ s1 : LoopState, s1.crashed = false →
      ev ∈ (epochStep cfg (ampResolved cfg) (totalIterOf cfg) e s1).1) :
    ev ∈ (train cfg).trace := by
  obtain ⟨L1, L2, hsplit⟩ := List.append_of_mem he
  have hnE : ¬cfg.epochs ≤ 0 := by omega
  rw [train_trace_eq hnE]
  refine List.mem_append.mpr (Or.inl (List.mem_append.mpr (Or.inr ?_)))
  unfold trainLoop
  rw [hsplit, loopAux_append]
  have hc1 : (loopAux cfg (ampResolved cfg) (totalIterOf cfg) L1 (initState cfg)).2.crashed = false := by
    refine loopAux_nocrash (fun e1 he1 => hnc e1 ?_) ?_
    · rw [hsplit]
      exact List.mem_append.mpr (Or.inl he1)
    · unfold initState
      split <;> rfl
  rw [loopAux_cons hc1]
  exact List.mem_append.mpr (Or.inr (List.mem_append.mpr (Or.inl (hev _ hc1))))

/-- C2: for every executed epoch e of a non-aborting run, the per-epoch
validation (line 176) happens after epoch e exactly when
validate_interval != 0 and (e mod validate_interval = 0 or e = epochs);
and for every call with validate_interval = 0, no validation pass of
either kind, no save call and no best-accuracy update ever happens. -/
theorem validate_trigger_iff (cfg : TrainCfg) (e : Int)
    (hE : 0 < cfg.epochs)
    (hnc : ∀ e1 ∈ epochList cfg, epochSampleCount cfg e1 ≠ 0)
    (he : e ∈ epochList cfg) :
    ((∃ a w, Event.validateEpoch e a w ∈ (train cfg).trace) ↔
      (cfg.validateInterval ≠ 0
        ∧ (Int.fmod e cfg.validateInterval = 0 ∨ e = cfg.epochs)))
    ∧ (cfg.validateInterval = 0 →
        (¬ (∃ e1 a w, Event.validateEpoch e1 a w ∈ (train cfg).trace))
        ∧ (¬ (∃ a w, Event.validateInit a w ∈ (train cfg).trace))
        ∧ (¬ (∃ e1, Event.saveCall e1 ∈ (train cfg).trace))
        ∧ (¬ (∃ e1 q, Event.bestUpdate e1 q ∈ (train cfg).trace))) := by
  constructor
  · constructor
    · rintro ⟨a, w, hmem⟩
      rcases mem_train_trace hmem with h1 | ⟨e1, he1, s1, h2⟩ | h3
      · rcases preLoopTrace_events h1 with h | h | h <;> exact Event.noConfusion h
      · obtain ⟨rfl, -, -, -, hchk⟩ := validateEpoch_mem_epochStep.mp h2
        exact chkCond_iff.mp hchk
      · exact Event.noConfusion h3
    · intro hchk
      refine ⟨e + cfg.startEpoch, cfg.hasWriter, ?_⟩
      refine epochStep_mem_train cfg e hE he hnc (fun s1 _ => ?_)
      exact validateEpoch_mem_epochStep.mpr ⟨rfl, rfl, rfl, hnc e he, chkCond_iff.mpr hchk⟩
  · intro hvi
    have hpre : ∀ ev : Event, ev ∈ preLoopTrace cfg (ampResolved cfg) →
        ev = Event.scalerCreate ∨ ev = Event.schedStep := by
      intro ev hev
      simp only [preLoopTrace, hvi, List.mem_append, mem_ite_nil_iff,
        List.mem_singleton, List.mem_replicate] at hev
      simp at hev
      tauto
    refine ⟨?_, ?_, ?_, ?_⟩
    · rintro ⟨e1, a, w, hmem⟩
      rcases mem_train_trace hmem with h1 | ⟨e2, he2, s2, h2⟩ | h3
      · rcases hpre _ h1 with h | h <;> exact Event.noConfusion h
      · obtain ⟨-, -, -, -, hchk⟩ := validateEpoch_mem_epochStep.mp h2
        rw [chkCond_vi0 hvi] at hchk
        exact Bool.noConfusion hchk
      · exact Event.noConfusion h3
    · rintro ⟨a, w, hmem⟩
      rcases mem_train_trace hmem with h1 | ⟨e2, he2, s2, h2⟩ | h3
      · rcases hpre _ h1 with h | h <;> exact Event.noConfusion h
      · exact validateInit_not_mem_epochStep h2
      · exact Event.noConfusion h3
    · rintro ⟨e1, hmem⟩
      rcases mem_train_trace hmem with h1 | ⟨e2, he2, s2, h2⟩ | h3
      · rcases hpre _ h1 with h | h <;> exact Event.noConfusion h
      · obtain ⟨-, -, hchk, -, -⟩ := saveCall_mem_epochStep.mp h2
        rw [chkCond_vi0 hvi] at hchk
        exact Bool.noConfusion hchk
      · exact Event.noConfusion h3
    · rintro ⟨e1, q, hmem⟩
      rcases mem_train_trace hmem with h1 | ⟨e2, he2, s2, h2⟩ | h3
      · rcases hpre _ h1 with h | h <;> exact Event.noConfusion h
      · obtain ⟨-, hchk⟩ := bestUpdate_mem_epochStep h2
        rw [chkCond_vi0 hvi] at hchk
        exact Bool.noConfusion hchk
      · exact Event.noConfusion h3

/-- Witness for C2 at baseCfg (validate_interval = 1) and epoch 2. -/
theorem validate_trigger_iff_witness :
    ∃ a w, Event.validateEpoch 2 a w ∈ (train baseCfg).trace :=
  (validate_trigger_iff baseCfg 2 (by decide)
    (fun e1 _ => by simp [epochSampleCount, baseCfg])
    (by decide)).1.mpr (by decide)

/-- Projection extracting the epoch tag of an epochBegin event. -/
def epochBeginOf : Event → Option Int
  | Event.epochBegin e => some e
  | _ => none

theorem filterMap_epochBegin_epochBatches {cfg : TrainCfg} {amp : Bool} {t e : Int} :
    (epochBatches cfg amp t e).filterMap epochBeginOf = [] := by
  rw [List.filterMap_eq_nil_iff]
  intro ev hev
  cases ev <;> first
    | rfl
    | exact absurd hev epochBegin_not_mem_epochBatches

theorem filterMap_epochBegin_epochStep {cfg : TrainCfg} {amp : Bool} {t e : Int}
    {s : LoopState} :
    ((epochStep cfg amp t e s).1).filterMap epochBeginOf = [e] := by
  simp only [epochStep, beq_iff_eq]
  split_ifs <;>
    simp [List.filterMap_append, filterMap_epochBegin_epochBatches, epochBeginOf,
      apply_ite (List.filterMap epochBeginOf)]

theorem filterMap_epochBegin_loopAux {cfg : TrainCfg} {amp : Bool} {t : Int}
    {es : List Int} {s : LoopState} (hc : s.crashed = false)
    (hnc : (loopAux cfg amp t es s).2.crashed = false) :
    ((loopAux cfg amp t es s).1).filterMap epochBeginOf = es := by
  induction es generalizing s with
  | nil => simp [loopAux]
  | cons e es ih =>
    rw [loopAux_cons hc] at hnc ⊢
    by_cases hp : (epochStep cfg amp t e s).2.crashed
    · rw [loopAux_crashed hp] at hnc
      simp only at hnc
      rw [hnc] at hp
      exact Bool.noConfusion hp
    · simp only [Bool.not_eq_true] at hp
      rw [List.filterMap_append, filterMap_epochBegin_epochStep, ih hp hnc]
      rfl

theorem epochList_eq_intRange (cfg : TrainCfg) :
    epochList cfg = intRange (cfg.resume + 1) (cfg.epochs + 1) := by
  unfold epochList intRange
  rw [List.map_map]
  have harg : cfg.epochs + 1 - (cfg.resume + 1) = cfg.epochs - cfg.resume := by ring
  rw [harg]
  congr 1
  funext k
  simp only [Function.comp_apply]
  ring

/-- Configuration refuting C5 as stated: resume = 3 with a schedule
present, but epochs = 0. -/
def c5xCfg : TrainCfg :=
  { baseCfg with epochs := 0, resume := 3, hasLrScheduler := true }

/-- Counterexample to C5 as stated: with resume = 3, a schedule present
and epochs = 0, the epochs ≤ 0 early return fires first and the
schedule is never stepped, not stepped resume times. -/
theorem resume_walk_counterexample :
    (0 : Int) < c5xCfg.resume ∧ c5xCfg.hasLrScheduler = true
      ∧ (train c5xCfg).trace.count Event.schedStep ≠ c5xCfg.resume.toNat := by
  decide

/-- C5 amended: for every call of train with epochs > 0, resume > 0 and
a learning-rate schedule present, the trace decomposes as the pre-loop
segment followed by the epoch loop, the pre-loop segment contains
exactly resume schedule steps (performed unconditionally) and no epoch
activity; and unless the run aborts with an exception, the epoch loop
covers exactly the epochs resume+1 through epochs, in order. -/
theorem resume_walk_amended (cfg : TrainCfg)
    (hr : 0 < cfg.resume) (hs : cfg.hasLrScheduler = true) (hE : 0 < cfg.epochs) :
    (∃ rest, (train cfg).trace = preLoopTrace cfg (ampResolved cfg) ++ rest)
      ∧ (preLoopTrace cfg (ampResolved cfg)).count Event.schedStep = cfg.resume.toNat
      ∧ (∀ e : Int, Event.epochBegin e ∉ preLoopTrace cfg (ampResolved cfg))
      ∧ ((train cfg).crashed = false →
          (train cfg).trace.filterMap epochBeginOf
            = intRange (cfg.resume + 1) (cfg.epochs + 1)) := by
  have hnE : ¬cfg.epochs ≤ 0 := by omega
  refine ⟨?_, ?_, ?_, ?_⟩
  · exact ⟨_, by rw [train_trace_eq hnE, List.append_assoc]⟩
  · have hrne : (cfg.resume != 0) = true := by
      simp only [bne_iff_ne, ne_eq]
      omega
    simp [preLoopTrace, hrne, hs, List.count_append, List.count_replicate,
      apply_ite (List.count Event.schedStep)]
  · intro e hmem
    rcases preLoopTrace_events hmem with h | h | h <;> exact Event.noConfusion h
  · intro hcr
    have hcr2 : (trainLoop cfg).2.crashed = false := by
      simp only [train, if_neg hnE] at hcr
      exact hcr
    rw [train_trace_eq hnE, ← epochList_eq_intRange]
    rw [List.filterMap_append, List.filterMap_append]
    have h1 : (preLoopTrace cfg (ampResolved cfg)).filterMap epochBeginOf = [] := by
      rw [List.filterMap_eq_nil_iff]
      intro ev hev
      rcases preLoopTrace_events hev with h | h | h <;> (subst h; rfl)
    have h3 : (if (trainLoop cfg).2.crashed then ([] : List Event)
        else [Event.moduleZeroGrad]).filterMap epochBeginOf = [] := by
      rw [hcr2]
      rfl
    rw [h1, h3]
    have h2 : ((trainLoop cfg).1).filterMap epochBeginOf = epochList cfg := by
      unfold trainLoop
      refine filterMap_epochBegin_loopAux ?_ hcr2
      unfold initState
      split <;> rfl
    rw [h2]
    simp

/-- Witness for the amended C5 at a concrete resuming configuration. -/
theorem resume_walk_amended_witness :
    (preLoopTrace { baseCfg with resume := 2, hasLrScheduler := true }
        (ampResolved { baseCfg with resume := 2, hasLrScheduler := true })).count
        Event.schedStep = 2
      ∧ (train { baseCfg with resume := 2, hasLrScheduler := true }).trace.filterMap
          epochBeginOf = intRange 3 5 :=
  ⟨(resume_walk_amended { baseCfg with resume := 2, hasLrScheduler := true }
      (by decide) rfl (by decide)).2.1,
   (resume_walk_amended { baseCfg with resume := 2, hasLrScheduler := true }
      (by decide) rfl (by decide)).2.2.2 (by decide)⟩

/-- Iteration-index and total-count arguments of a post-loss hook call. -/
def afterLossIter : Event → Option (Int × Int)
  | Event.afterLoss _ _ it tt => some (it, tt)
  | _ => none

/-- Configuration refuting the last part of C10 as stated: one epoch,
one batch, un-resumed, post-loss hook attached. -/
def c10xCfg : TrainCfg :=
  { baseCfg with epochs := 1, validateInterval := 0 }

/-- Counterexample to C10 as stated: in this run the single post-loss
hook invocation receives iteration index 1 and total count 1, so the
final invocation does not exceed the total iteration count. -/
theorem after_loss_iter_counterexample :
    (train c10xCfg).trace.filterMap afterLossIter = [(1, 1)]
      ∧ ∀ p ∈ (train c10xCfg).trace.filterMap afterLossIter, ¬(p.2 < p.1) := by
  decide

theorem afterLoss_mem_train_iff {cfg : TrainCfg} {e : Int} {i : Nat} {it tt : Int}
    (hmem : Event.afterLoss e i it tt ∈ (train cfg).trace) :
    cfg.hasAfterLossFn = true ∧ e ∈ epochList cfg ∧ i < cfg.lenLoaderTrain
      ∧ it = e * (cfg.lenLoaderTrain : Int) + i ∧ tt = totalIterOf cfg := by
  rcases mem_train_trace hmem with h1 | ⟨e1, he1, s1, h2⟩ | h3
  · rcases preLoopTrace_events h1 with h | h | h <;> exact Event.noConfusion h
  · rw [afterLoss_mem_epochStep, afterLoss_mem_epochBatches] at h2
    obtain ⟨hA, rfl, hi, hit, htt⟩ := h2
    exact ⟨hA, he1, hi, hit, htt⟩
  · exact Event.noConfusion h3

/-- C10 amended: with a post-loss hook attached, in an un-resumed
non-aborting run with at least one epoch and one batch, every hook
invocation receives iteration index e*len + i (e the 1-based epoch, i
the 0-based batch index) together with total count (epochs - resume) *
len, so the first invocation receives len (not 0) and the final
invocation receives epochs*len + len - 1, which is greater than or
equal to (rather than strictly exceeding) the total count passed
alongside it. -/
theorem after_loss_iter_amended (cfg : TrainCfg)
    (hA : cfg.hasAfterLossFn = true) (h0 : cfg.resume = 0)
    (hl : 0 < cfg.lenLoaderTrain) (hE : 0 < cfg.epochs)
    (hnc : ∀ e1 ∈ epochList cfg, epochSampleCount cfg e1 ≠ 0) :
    (∀ e i it tt, Event.afterLoss e i it tt ∈ (train cfg).trace →
        (it = e * (cfg.lenLoaderTrain : Int) + i ∧ tt = totalIterOf cfg
          ∧ 1 ≤ e ∧ e ≤ cfg.epochs ∧ i < cfg.lenLoaderTrain))
      ∧ Event.afterLoss 1 0 (cfg.lenLoaderTrain : Int) (totalIterOf cfg)
          ∈ (train cfg).trace
      ∧ (∀ e i it tt, Event.afterLoss e i it tt ∈ (train cfg).trace →
          (cfg.lenLoaderTrain : Int) ≤ it)
      ∧ Event.afterLoss cfg.epochs (cfg.lenLoaderTrain - 1)
          (cfg.epochs * (cfg.lenLoaderTrain : Int) + ((cfg.lenLoaderTrain : Int) - 1))
          (totalIterOf cfg) ∈ (train cfg).trace
      ∧ (∀ e i it tt, Event.afterLoss e i it tt ∈ (train cfg).trace →
          it ≤ cfg.epochs * (cfg.lenLoaderTrain : Int) + ((cfg.lenLoaderTrain : Int) - 1))
      ∧ totalIterOf cfg
          ≤ cfg.epochs * (cfg.lenLoaderTrain : Int) + ((cfg.lenLoaderTrain : Int) - 1) := by
  have hlen : (0 : Int) < (cfg.lenLoaderTrain : Int) := by exact_mod_cast hl
  refine ⟨?_, ?_, ?_, ?_, ?_, ?_⟩
  · intro e i it tt hmem
    obtain ⟨-, he, hi, hit, htt⟩ := afterLoss_mem_train_iff hmem
    rw [mem_epochList, h0] at he
    exact ⟨hit, htt, by omega, he.2, hi⟩
  · refine epochStep_mem_train cfg 1 hE (mem_epochList.mpr (by omega)) hnc (fun s1 _ => ?_)
    rw [afterLoss_mem_epochStep, afterLoss_mem_epochBatches]
    exact ⟨hA, rfl, hl, by simp, rfl⟩
  · intro e i it tt hmem
    obtain ⟨-, he, hi, hit, htt⟩ := afterLoss_mem_train_iff hmem
    rw [mem_epochList, h0] at he
    have hmul : 1 * (cfg.lenLoaderTrain : Int) ≤ e * (cfg.lenLoaderTrain : Int) :=
      mul_le_mul_of_nonneg_right (by omega) (by omega)
    have hi2 : (0 : Int) ≤ (i : Int) := by exact_mod_cast Nat.zero_le i
    omega
  · refine epochStep_mem_train cfg cfg.epochs hE (mem_epochList.mpr (by omega)) hnc
      (fun s1 _ => ?_)
    rw [afterLoss_mem_epochStep, afterLoss_mem_epochBatches]
    refine ⟨hA, rfl, by omega, ?_, rfl⟩
    have : ((cfg.lenLoaderTrain - 1 : Nat) : Int) = (cfg.lenLoaderTrain : Int) - 1 := by
      omega
    rw [this]
  · intro e i it tt hmem
    obtain ⟨-, he, hi, hit, htt⟩ := afterLoss_mem_train_iff hmem
    rw [mem_epochList, h0] at he
    have hmul : e * (cfg.lenLoaderTrain : Int) ≤ cfg.epochs * (cfg.lenLoaderTrain : Int) :=
      mul_le_mul_of_nonneg_right he.2 (by omega)
    have hi2 : (i : Int) < (cfg.lenLoaderTrain : Int) := by exact_mod_cast hi
    omega
  · unfold totalIterOf
    rw [h0, sub_zero]
    omega

/-- Witness for the amended C10 at baseCfg with two batches per epoch. -/
theorem after_loss_iter_amended_witness :
    Event.afterLoss 1 0 ((2 : Nat) : Int)
        (totalIterOf { baseCfg with lenLoaderTrain := 2 })
        ∈ (train { baseCfg with lenLoaderTrain := 2 }).trace
      ∧ Event.afterLoss 4 1 (4 * ((2 : Nat) : Int) + (((2 : Nat) : Int) - 1))
          (totalIterOf { baseCfg with lenLoaderTrain := 2 })
          ∈ (train { baseCfg with lenLoaderTrain := 2 }).trace := by
  have h := after_loss_iter_amended { baseCfg with lenLoaderTrain := 2 }
    rfl rfl (by decide) (by decide)
    (fun e1 _ => by simp [epochSampleCount, baseCfg, List.range_succ])
  exact ⟨h.2.1, h.2.2.2.1⟩

theorem saveCall_not_mem_loopAux_of_no_chk {cfg : TrainCfg} {amp : Bool} {t : Int}
    {es : List Int} {s : LoopState} {e : Int}
    (h : ∀ e1 ∈ es, chkCond cfg e1 = false) :
    Event.saveCall e ∉ (loopAux cfg amp t es s).1 := by
  intro hmem
  obtain ⟨e1, he1, s1, hs1⟩ := mem_loopAux hmem
  obtain ⟨heq, -, hchk, -, -⟩ := saveCall_mem_epochStep.mp hs1
  rw [h e1 he1] at hchk
  exact Bool.noConfusion hchk

theorem saveCall_not_mem_loopAux_of_not_mem {cfg : TrainCfg} {amp : Bool} {t : Int}
    {es : List Int} {s : LoopState} {e : Int} (h : e ∉ es) :
    Event.saveCall e ∉ (loopAux cfg amp t es s).1 := by
  intro hmem
  obtain ⟨e1, he1, s1, hs1⟩ := mem_loopAux hmem
  obtain ⟨heq, -, -, -, -⟩ := saveCall_mem_epochStep.mp hs1
  rw [heq] at h
  exact h he1

/-- C9: whenever validate_interval != 0 (and at least one epoch runs),
train performs one extra validation pass before the first training
epoch, with the metrics sink suppressed (writer=None), and uses its
accuracy (validate_fn call 0) as the initial best; consequently the
first periodic checkpoint of a non-aborting run with saving enabled
triggers a save exactly when its accuracy (validate_fn call 1) is ≥ the
pre-training accuracy, not unconditionally. -/
theorem initial_validate_best_init (cfg : TrainCfg)
    (hvi : cfg.validateInterval ≠ 0) (hE : 0 < cfg.epochs) (hsave : cfg.save = true)
    (hnc : ∀ e1 ∈ epochList cfg, epochSampleCount cfg e1 ≠ 0)
    (L1 L2 : List Int) (estar : Int)
    (hsplit : epochList cfg = L1 ++ estar :: L2)
    (h1 : ∀ e ∈ L1, chkCond cfg e = false)
    (hstar : chkCond cfg estar = true) :
    Event.validateInit cfg.startEpoch false ∈ preLoopTrace cfg (ampResolved cfg)
      ∧ (∃ rest, (train cfg).trace = preLoopTrace cfg (ampResolved cfg) ++ rest)
      ∧ (Event.saveCall estar ∈ (train cfg).trace ↔ cfg.valAcc 0 ≤ cfg.valAcc 1) := by
  have hnE : ¬cfg.epochs ≤ 0 := by omega
  have hvib : (cfg.validateInterval != 0) = true := bne_iff_ne.mpr hvi
  have hs0 : initState cfg = ⟨cfg.valAcc 0, 1, false⟩ := by
    unfold initState
    rw [if_pos hvib]
  have hstarmem : estar ∈ epochList cfg := by
    rw [hsplit]
    exact List.mem_append.mpr (Or.inr (List.mem_cons_self _ _))
  have hL1 : ∀ e ∈ L1, e ∈ epochList cfg := by
    intro e he
    rw [hsplit]
    exact List.mem_append.mpr (Or.inl he)
  have hA : (loopAux cfg (ampResolved cfg) (totalIterOf cfg) L1 (initState cfg)).2
      = initState cfg :=
    loopAux_state_frozen (fun e he => ⟨h1 e he, hnc e (hL1 e he)⟩) (by rw [hs0])
  have hcr0 : (initState cfg).crashed = false := by rw [hs0]
  have hdecomp : (train cfg).trace
      = preLoopTrace cfg (ampResolved cfg)
        ++ ((loopAux cfg (ampResolved cfg) (totalIterOf cfg) L1 (initState cfg)).1
          ++ ((epochStep cfg (ampResolved cfg) (totalIterOf cfg) estar (initState cfg)).1
            ++ (loopAux cfg (ampResolved cfg) (totalIterOf cfg) L2
                  (epochStep cfg (ampResolved cfg) (totalIterOf cfg) estar
                    (initState cfg)).2).1))
        ++ (if (trainLoop cfg).2.crashed then [] else [Event.moduleZeroGrad]) := by
    rw [train_trace_eq hnE]
    unfold trainLoop
    rw [hsplit, loopAux_append, hA, loopAux_cons hcr0]
  have hnodup : (epochList cfg).Nodup := epochList_nodup cfg
  have hnotinL2 : estar ∉ L2 := by
    rw [hsplit] at hnodup
    have := (List.nodup_append.mp hnodup).2.1
    exact (List.nodup_cons.mp this).1
  refine ⟨?_, ⟨_, by rw [train_trace_eq hnE, List.append_assoc]⟩, ?_⟩
  · simp [preLoopTrace, hvib, mem_ite_nil_iff]
  · rw [hdecomp]
    constructor
    · intro hmem
      rcases List.mem_append.mp hmem with hm | hm
      · rcases List.mem_append.mp hm with hm1 | hm2
        · rcases preLoopTrace_events hm1 with h | h | h <;> exact Event.noConfusion h
        · rcases List.mem_append.mp hm2 with hm3 | hm4
          · exact absurd hm3 (saveCall_not_mem_loopAux_of_no_chk h1)
          · rcases List.mem_append.mp hm4 with hm5 | hm6
            · obtain ⟨-, -, -, -, hbest⟩ := saveCall_mem_epochStep.mp hm5
              rw [hs0] at hbest
              exact hbest
            · exact absurd hm6 (saveCall_not_mem_loopAux_of_not_mem hnotinL2)
      · rcases mem_ite_iff.mp hm with ⟨-, hm7⟩ | ⟨-, hm7⟩ <;> simp at hm7
    · intro hacc
      refine List.mem_append.mpr (Or.inl (List.mem_append.mpr (Or.inr
        (List.mem_append.mpr (Or.inr (List.mem_append.mpr (Or.inl ?_)))))))
      refine saveCall_mem_epochStep.mpr ⟨rfl, hnc estar hstarmem, hstar, hsave, ?_⟩
      rw [hs0]
      exact hacc

/-- Witness for C9: baseCfg with one epoch; the only epoch is the first
checkpoint and the pre-training accuracy ties with it, so a save
happens. -/
theorem initial_validate_best_init_witness :
    Event.validateInit 0 false
        ∈ preLoopTrace { baseCfg with epochs := 1 }
          (ampResolved { baseCfg with epochs := 1 })
      ∧ (Event.saveCall 1 ∈ (train { baseCfg with epochs := 1 }).trace
          ↔ ({ baseCfg with epochs := 1 } : TrainCfg).valAcc 0
              ≤ ({ baseCfg with epochs := 1 } : TrainCfg).valAcc 1) := by
  have h := initial_validate_best_init { baseCfg with epochs := 1 }
    (by decide) (by decide) rfl
    (fun e1 _ => by simp [epochSampleCount, baseCfg, List.range_succ])
    [] [] 1 (by decide) (by intro e he; simp at he) (by decide)
  exact ⟨h.1, h.2.2⟩

/-- Epoch tag of a save-checkpoint call. -/
def saveEpochOf : Event → Option Int
  | Event.saveCall e => some e
  | _ => none

theorem bestUpdate_mem_epochStep_iff {cfg : TrainCfg} {amp : Bool} {t e1 : Int}
    {s : LoopState} {e : Int} {q : ℚ} :
    Event.bestUpdate e q ∈ (epochStep cfg amp t e1 s).1 ↔
      (e = e1 ∧ q = cfg.valAcc s.vCalls ∧ epochSampleCount cfg e1 ≠ 0
        ∧ chkCond cfg e1 = true ∧ s.best ≤ cfg.valAcc s.vCalls) := by
  simp only [epochStep, beq_iff_eq]
  split_ifs with h1 h2 h3 h4 <;>
    simp_all [mem_ite_iff, mem_ite_nil_iff, bestUpdate_not_mem_epochBatches]

theorem train_best_eq {cfg : TrainCfg} (hE : ¬cfg.epochs ≤ 0) :
    (train cfg).best =
      if cfg.validateInterval != 0 then some (trainLoop cfg).2.best else none := by
  simp [train, hE]

theorem epochStep_best_irrel {cfg : TrainCfg} {amp : Bool} {t e : Int}
    {s s2 : LoopState}
    (hc : chkCond cfg e = true) (hn : epochSampleCount cfg e ≠ 0)
    (hs : s.best ≤ cfg.valAcc s.vCalls) (hs2 : s2.best ≤ cfg.valAcc s2.vCalls)
    (hv : s.vCalls = s2.vCalls) :
    epochStep cfg amp t e s = epochStep cfg amp t e s2 := by
  simp only [epochStep, beq_iff_eq]
  rw [if_neg hn, if_neg hn, if_pos hc, if_pos hc, if_pos hs, if_pos hs2, hv]

/-- Four-checkpoint scenario configuration: validation accuracies
a0 (pre-training), then 70, 65, 80, 75 at the four checkpoints. -/
def c1Cfg (a0 : ℚ) : TrainCfg :=
  { baseCfg with valAcc := fun n => [a0, 70, 65, 80, 75].getD n 0 }

/-- Counterexample to C1 as stated: with checkpoint accuracies exactly
[70, 65, 80, 75] but a pre-training validation accuracy of 90, the save
function is never invoked (in particular not at checkpoints 1 and 3)
and best-so-far ends at 90, not 80. -/
theorem best_acc_counterexample :
    (train (c1Cfg 90)).trace.filterMap saveEpochOf = []
      ∧ (train (c1Cfg 90)).best = some 90 := by
  decide

set_option maxHeartbeats 2000000 in
set_option maxRecDepth 40000 in
/-- C1 amended: at every periodic validation checkpoint, if the
returned accuracy is ≥ the current best (ties count as improvement),
the best is updated to it and, when saving is enabled, the save
function is invoked, and not otherwise; and in the concrete scenario
with checkpoint accuracies [70, 65, 80, 75], provided the pre-training
validation accuracy a0 is at most 70, the save function is invoked
exactly at checkpoints 1 and 3 and best-so-far ends at 80. -/
theorem best_acc_tracking_amended (a0 : ℚ) (h : a0 ≤ 70) :
    (∀ (cfg : TrainCfg) (amp : Bool) (t e : Int) (s : LoopState),
      chkCond cfg e = true → epochSampleCount cfg e ≠ 0 →
        ((Event.saveCall e ∈ (epochStep cfg amp t e s).1 ↔
            (cfg.save = true ∧ s.best ≤ cfg.valAcc s.vCalls))
          ∧ (Event.bestUpdate e (cfg.valAcc s.vCalls) ∈ (epochStep cfg amp t e s).1 ↔
              s.best ≤ cfg.valAcc s.vCalls)
          ∧ (epochStep cfg amp t e s).2.best =
              (if s.best ≤ cfg.valAcc s.vCalls then cfg.valAcc s.vCalls else s.best)))
    ∧ (train (c1Cfg a0)).trace.filterMap saveEpochOf = [1, 3]
    ∧ (train (c1Cfg a0)).best = some 80 := by
  have hchk1 : chkCond (c1Cfg a0) 1 = true := rfl
  have hcnt1 : epochSampleCount (c1Cfg a0) 1 ≠ 0 := by
    show (1 : Nat) ≠ 0
    norm_num
  have hz : (⟨0, 1, false⟩ : LoopState).best ≤ (c1Cfg a0).valAcc 1 := by
    show (0 : ℚ) ≤ 70
    norm_num
  have ha : (⟨a0, 1, false⟩ : LoopState).best ≤ (c1Cfg a0).valAcc 1 := h
  have hstep1 : epochStep (c1Cfg a0) false 4 1 ⟨a0, 1, false⟩
      = epochStep (c1Cfg a0) false 4 1 ⟨0, 1, false⟩ :=
    epochStep_best_irrel hchk1 hcnt1 ha hz rfl
  have hL : loopAux (c1Cfg a0) false 4 [1, 2, 3, 4] ⟨a0, 1, false⟩
      = loopAux (c1Cfg a0) false 4 [1, 2, 3, 4] ⟨0, 1, false⟩ := by
    conv_lhs => rw [loopAux_cons rfl]
    rw [hstep1]
    conv_rhs => rw [loopAux_cons rfl]
  have ht : trainLoop (c1Cfg a0)
      = loopAux (c1Cfg a0) false 4 [1, 2, 3, 4] ⟨0, 1, false⟩ := by
    rw [show trainLoop (c1Cfg a0)
        = loopAux (c1Cfg a0) false 4 [1, 2, 3, 4] ⟨a0, 1, false⟩ from rfl, hL]
  have hnE : ¬(c1Cfg a0).epochs ≤ 0 := by
    show ¬(4 : Int) ≤ 0
    norm_num
  have hstate1 : (epochStep (c1Cfg a0) false 4 1 (⟨0, 1, false⟩ : LoopState)).2
      = ⟨70, 2, false⟩ := rfl
  have hstate2 : (epochStep (c1Cfg a0) false 4 2 (⟨70, 2, false⟩ : LoopState)).2
      = ⟨70, 3, false⟩ := rfl
  have hstate3 : (epochStep (c1Cfg a0) false 4 3 (⟨70, 3, false⟩ : LoopState)).2
      = ⟨80, 4, false⟩ := rfl
  have hstate4 : (epochStep (c1Cfg a0) false 4 4 (⟨80, 4, false⟩ : LoopState)).2
      = ⟨80, 5, false⟩ := rfl
  have hsave1 : ((epochStep (c1Cfg a0) false 4 1 (⟨0, 1, false⟩ : LoopState)).1).filterMap
      saveEpochOf = [1] := rfl
  have hsave2 : ((epochStep (c1Cfg a0) false 4 2 (⟨70, 2, false⟩ : LoopState)).1).filterMap
      saveEpochOf = [] := rfl
  have hsave3 : ((epochStep (c1Cfg a0) false 4 3 (⟨70, 3, false⟩ : LoopState)).1).filterMap
      saveEpochOf = [3] := rfl
  have hsave4 : ((epochStep (c1Cfg a0) false 4 4 (⟨80, 4, false⟩ : LoopState)).1).filterMap
      saveEpochOf = [] := rfl
  have hfin : (loopAux (c1Cfg a0) false 4 [1, 2, 3, 4] (⟨0, 1, false⟩ : LoopState)).2
      = ⟨80, 5, false⟩ := by
    rw [loopAux_cons rfl, hstate1, loopAux_cons rfl, hstate2, loopAux_cons rfl, hstate3,
      loopAux_cons rfl, hstate4]
    rfl
  have hflt : ((loopAux (c1Cfg a0) false 4 [1, 2, 3, 4] (⟨0, 1, false⟩ : LoopState)).1).filterMap
      saveEpochOf = [1, 3] := by
    rw [loopAux_cons rfl, hstate1, loopAux_cons rfl, hstate2, loopAux_cons rfl, hstate3,
      loopAux_cons rfl, hstate4]
    simp only [List.filterMap_append, hsave1, hsave2, hsave3, hsave4]
    rfl
  refine ⟨?_, ?_, ?_⟩
  · intro cfg amp t e s hc hn
    refine ⟨?_, ?_, ?_⟩
    · rw [saveCall_mem_epochStep]
      constructor
      · rintro ⟨-, -, -, hsv, hb⟩
        exact ⟨hsv, hb⟩
      · rintro ⟨hsv, hb⟩
        exact ⟨rfl, hn, hc, hsv, hb⟩
    · rw [bestUpdate_mem_epochStep_iff]
      constructor
      · rintro ⟨-, -, -, -, hb⟩
        exact hb
      · intro hb
        exact ⟨rfl, rfl, hn, hc, hb⟩
    · rw [epochStep_chk_state hc hn]
      split <;> rfl
  · rw [train_trace_eq hnE, ht, List.filterMap_append, List.filterMap_append, hflt, hfin]
    rfl
  · rw [train_best_eq hnE, ht, hfin]
    rfl

/-- Witness for the amended C1 with pre-training accuracy 0 ≤ 70. -/
theorem best_acc_tracking_amended_witness :
    (train (c1Cfg 0)).trace.filterMap saveEpochOf = [1, 3]
      ∧ (train (c1Cfg 0)).best = some 80 :=
  ⟨(best_acc_tracking_amended 0 (by decide)).2.1,
   (best_acc_tracking_amended 0 (by decide)).2.2⟩
